import Mathlib

/-!
Verification of the deduction-and-resolution core of a Cairo-style virtual
machine: the number-theory kernel (math_utils.rs), the EC-op builtin deducer
(vm/runners/builtin_runner/ec_op.rs), the mod-builtin circuit evaluator
(hint_processor/cairo_1_hint_processor/circuit.rs) and the symbolic
reference resolver (hint_processor/hint_processor_utils.rs), shallowly
embedded in Lean.  Field elements (Felt) are represented by their canonical
natural-number representative below the Stark prime; BigInt becomes Int;
fallible Rust functions return Except; the write-once memory facade is a
function from addresses to optional cell values.  Loops are embedded either
by well-founded recursion mirroring the Rust loop or with an explicit bound
that the source loop provably never exceeds.
-/

set_option maxRecDepth 1000000
set_option maxHeartbeats 40000000

/-- The Stark prime 2^251 + 17 * 2^192 + 1 (felt::PRIME_STR). -/
def PRIME : Nat := 0x800000000000011000000000000000000000000000000000000000000000001

/-- Errors of vm/errors/vm_errors.rs used by the embedded code
(constructors restricted to the variants the embedded functions produce). -/
inductive VirtualMachineError where
  | SqrtNegative (n : Int)
  | FailedToGetSqrt (n : Int)
  | DividedByZero
  | SafeDivFail (x y : Nat)
  | NoRegisterInReference
  | InvalidTrackingGroup (a b : Nat)
  | FailedToGetIds
  | NoneApTrackingData
  | BigintToUsizeFail
  | ExpectedRelocatable (seg : Int) (off : Nat)
  | ExpectedInteger (seg : Int) (off : Nat)
  | MemoryGet (seg : Int) (off : Nat)
  deriving DecidableEq, Repr

/-- Errors of vm/errors/runner_errors.rs used by the EC-op deducer. -/
inductive RunnerError where
  | EcOpSameXCoordinate (psum : Int × Int) (m : Nat) (dpoint : Int × Int)
  | PointNotOnCurve (pair : Nat × Nat)
  | ExpectedInteger (seg : Int) (off : Nat)
  | CouldntParsePrime
  deriving DecidableEq, Repr

/-! ## Math kernel — src/src/math_utils.rs -/

/-- The while-loop of `isqrt`: while y < x { x = y; y = (x + n / x) >> 1 }.
The argument pair (x, y) is the loop state; the loop returns x. -/
def isqrtLoop (n x y : Nat) : Nat :=
  if _h : y < x then isqrtLoop n y ((y + n / y) / 2) else x
termination_by x

/-- math_utils::isqrt: integer square root of a BigInt by Newton iteration,
with the source's explicit postcondition check (FailedToGetSqrt) and the
negative-input guard (SqrtNegative). -/
def isqrt (n : Int) : Except VirtualMachineError Int :=
  if n < 0 then .error (.SqrtNegative n)
  else
    let nn := n.toNat
    let x := isqrtLoop nn nn ((nn + 1) / 2)
    if x * x ≤ nn ∧ nn < (x + 1) * (x + 1) then .ok (x : Int)
    else .error (.FailedToGetSqrt n)

/-- math_utils::safe_div on field elements, which the felt crate divides by
their canonical integer representatives (div_mod_floor). -/
def safe_div (x y : Nat) : Except VirtualMachineError Nat :=
  if y = 0 then .error .DividedByZero
  else if x % y ≠ 0 then .error (.SafeDivFail x y)
  else .ok (x / y)

/-- Multiplication of field elements (the felt crate's Mul). -/
def feltMul (a b : Nat) : Nat := (a * b) % PRIME

/-- The while-loop of math_utils::igcdex.  State (a, b, r, s, x, y) with
a, b the nonnegative remainders; each step maps it to
(b, a % b, x - q * r, y - q * s, r, s) with q = a / b, and the loop returns
(x, y, a) when b reaches 0.  The first argument is an iteration bound; the
callers below pass b + 1, which the Euclidean descent never exhausts. -/
def igcdexLoop : Nat → Nat → Nat → Int → Int → Int → Int → Int × Int × Int
  | 0, a, _b, _r, _s, x, y => (x, y, (a : Int))
  | fuel + 1, a, b, r, s, x, y =>
    if b = 0 then (x, y, (a : Int))
    else igcdexLoop fuel b (a % b) (x - ((a / b : Nat) : Int) * r) (y - ((a / b : Nat) : Int) * s) r s

/-- math_utils::igcdex: returns (x, y, g) with g = x * a + y * b = gcd(a, b). -/
def igcdex (num_a num_b : Int) : Int × Int × Int :=
  if num_a = 0 ∧ num_b = 0 then (0, 1, 0)
  else if num_a = 0 then (0, num_b.sign, (num_b.natAbs : Int))
  else if num_b = 0 then (num_a.sign, 0, (num_a.natAbs : Int))
  else
    let a := num_a.natAbs
    let b := num_b.natAbs
    let r := igcdexLoop (b + 1) a b 0 1 1 0
    (r.1 * num_a.sign, r.2.1 * num_b.sign, r.2.2)

/-- math_utils::div_mod: the nonnegative x < p with m * x ≡ n (mod p),
via the Bezout coefficient of (m, p).  The source asserts gcd(m, p) = 1 and
aborts otherwise; the model returns the value of the assertion-passing path
(every caller in the embedded code divides by a unit mod the prime). -/
def div_mod (n m p : Int) : Int := (n * (igcdex m p).1) % p

/-- math_utils::line_slope.  The source asserts distinct x-coordinates;
callers guarantee it. -/
def line_slope (point_a point_b : Int × Int) (p : Int) : Int :=
  div_mod (point_a.2 - point_b.2) (point_a.1 - point_b.1) p

/-- math_utils::ec_add (short Weierstrass chord formula, all mod_floor p). -/
def ec_add (point_a point_b : Int × Int) (p : Int) : Int × Int :=
  let m := line_slope point_a point_b p
  let x := (m * m - point_a.1 - point_b.1) % p
  (x, (m * (point_a.1 - x) - point_a.2) % p)

/-- math_utils::ec_double_slope.  The source asserts y ≠ 0 mod p;
callers guarantee it. -/
def ec_double_slope (point : Int × Int) (alpha p : Int) : Int :=
  div_mod (3 * point.1 * point.1 + alpha) (2 * point.2) p

/-- math_utils::ec_double (short Weierstrass tangent formula). -/
def ec_double (point : Int × Int) (alpha p : Int) : Int × Int :=
  let m := ec_double_slope point alpha p
  let x := (m * m - 2 * point.1) % p
  (x, (m * (point.1 - x) - point.2) % p)

/-! ## Memory facade -/

/-- A relocatable address: (segment_index, offset). -/
abbrev Addr := Int × Nat

/-- A memory cell value: a field element or an address. -/
inductive MaybeRelocatable where
  | int (n : Nat)
  | ptr (a : Addr)
  deriving DecidableEq, Repr

/-- The memory facade: get(address) -> Option(CellValue). -/
def Memory := Addr → Option MaybeRelocatable

/-- Advance an address by a nonnegative offset. -/
def addAddr (a : Addr) (n : Nat) : Addr := (a.1, a.2 + n)

/-- insert(address, value); the write-once conflict check is owned by the
external facade, so the model overwrites. -/
def insertMem (mem : Memory) (a : Addr) (v : MaybeRelocatable) : Memory :=
  fun x => if x = a then some v else mem x

/-- The memory with no written cell. -/
def emptyMem : Memory := fun _ => none

/-! ## EC-op builtin — src/src/vm/runners/builtin_runner/ec_op.rs -/

/-- The (input, output) cell-index pairs of an EC-op instance that denote
elliptic-curve points, as declared inside deduce_memory_cell. -/
def EC_POINT_INDICES : List (Nat × Nat) := [(0, 1), (2, 3), (5, 6)]

/-- OUTPUT_INDICES = EC_POINT_INDICES[2]. -/
def OUTPUT_INDICES : Nat × Nat := (5, 6)

/-- Curve parameter alpha, as declared inside deduce_memory_cell. -/
def ALPHA : Nat := 1

/-- Curve parameter beta = (beta_high << 128) + beta_low, from the two
128-bit constants declared inside deduce_memory_cell. -/
def BETA : Nat :=
  0x6f21413efbe40de150e596d72f7a8c5 * 2 ^ 128 + 0x609ad26c15c915c1f4cdfcb99cee9e89

/-- The EC-op builtin runner state used by deduction (fields that deduction
never reads — ratio, base, stop pointer, inclusion flag — are omitted). -/
structure EcOpBuiltinRunner where
  cells_per_instance : Nat
  n_input_cells : Nat
  scalar_height : Nat

/-- Modelled from the spec: the layout constants CELLS_PER_EC_OP = 7,
INPUT_CELLS_PER_EC_OP = 5 and the instance definition's scalar_height = 256
live in types/instance_definitions/ec_op_instance_def.rs, which is not part
of the embedded sources; the spec fixes cells-per-instance = 7
(5 input + 2 output) and a ~256-bit scalar height, matching the EC-op
deduction fixture. -/
def ecOpRunner : EcOpBuiltinRunner :=
  { cells_per_instance := 7, n_input_cells := 5, scalar_height := 256 }

/-- EcOpBuiltinRunner::point_on_curve: y^2 == x^3 + alpha * x + beta in the
field (the felt crate reduces every operation mod PRIME). -/
def point_on_curve (x y alpha beta : Nat) : Bool :=
  y ^ 2 % PRIME == (x ^ 3 + alpha * x + beta) % PRIME

/-- The for-loop of EcOpBuiltinRunner::ec_op_impl.  State: the mutable pair
(partial sum, doubled point) plus the shifting copy of the scalar (the
source's variable named slope); m0 is the original scalar, kept only for
the error payload.  Each iteration first compares the two x-coordinates,
then conditionally adds, always doubles, and shifts the scalar. -/
def ecOpLoop (m0 : Nat) (alpha prime : Int) :
    Int × Int → Int × Int → Nat → Nat → Except RunnerError (Int × Int)
  | psum, _dpoint, _slope, 0 => .ok psum
  | psum, dpoint, slope, height + 1 =>
    if dpoint.1 - psum.1 = 0 then .error (.EcOpSameXCoordinate psum m0 dpoint)
    else
      ecOpLoop m0 alpha prime
        (if ¬ slope % 2 = 0 then ec_add psum dpoint prime else psum)
        (ec_double dpoint alpha prime) (slope / 2) height

/-- EcOpBuiltinRunner::ec_op_impl: P + m * Q by double-and-add over height
bits, failing whenever an addition or doubling would meet two equal
x-coordinates. -/
def ec_op_impl (psum dpoint : Int × Int) (m : Nat) (alpha prime : Int)
    (height : Nat) : Except RunnerError (Int × Int) :=
  ecOpLoop m alpha prime psum dpoint m height

/-- The input-cell reading loop of deduce_memory_cell, from cell index i,
rem cells remaining: a missing cell yields Ok none (deferred); a relocatable
cell yields Err ExpectedInteger; otherwise the collected field elements. -/
def readInputCells (mem : Memory) (inst : Addr) :
    Nat → Nat → Except RunnerError (Option (List Nat))
  | _i, 0 => .ok (some [])
  | i, rem + 1 =>
    match mem (addAddr inst i) with
    | none => .ok none
    | some (.ptr _) => .error (.ExpectedInteger inst.1 (inst.2 + i))
    | some (.int v) =>
      match readInputCells mem inst (i + 1) rem with
      | .error e => .error e
      | .ok none => .ok none
      | .ok (some vs) => .ok (some (v :: vs))

/-- Reduction of a BigInt into a Felt (Felt::new). -/
def feltOfInt (i : Int) : Nat := (i % (PRIME : Int)).toNat

/-- EcOpBuiltinRunner::deduce_memory_cell.  Non-output index: Ok none.
Unfilled input cell: Ok none.  Relocatable input cell: ExpectedInteger.
P off the curve: PointNotOnCurve (only pair (0,1) is checked; the scalar
limit check is disabled code in the source).  Otherwise the requested
coordinate of ec_op_impl's result. -/
def deduce_memory_cell (r : EcOpBuiltinRunner) (address : Addr) (mem : Memory) :
    Except RunnerError (Option MaybeRelocatable) :=
  let index := address.2 % r.cells_per_instance
  if index ≠ OUTPUT_INDICES.1 ∧ index ≠ OUTPUT_INDICES.2 then .ok none
  else
    let inst : Addr := (address.1, address.2 - index)
    match readInputCells mem inst 0 r.n_input_cells with
    | .error e => .error e
    | .ok none => .ok none
    | .ok (some input_cells) =>
      if ¬ point_on_curve (input_cells.getD 0 0) (input_cells.getD 1 0) ALPHA BETA then
        .error (.PointNotOnCurve (0, 1))
      else
        match ec_op_impl (input_cells.getD 0 0, input_cells.getD 1 0)
            (input_cells.getD 2 0, input_cells.getD 3 0) (input_cells.getD 4 0)
            (ALPHA : Int) (PRIME : Int) r.scalar_height with
        | .error e => .error e
        | .ok result =>
          if index - r.n_input_cells = 0 then .ok (some (.int (feltOfInt result.1)))
          else .ok (some (.int (feltOfInt result.2)))

/-! ## Mod-builtin circuit evaluator —
src/vm/src/hint_processor/cairo_1_hint_processor/circuit.rs

The source operates on a mutable VirtualMachine; here every function takes
and returns the Memory.  Rust panics (.unwrap() on an offset-table cell,
the unreachable mul-gate state, BigUint underflow) are modelled as none. -/

/-- Number of limbs of a circuit value (LIMBS_COUNT). -/
def LIMBS_COUNT : Nat := 4

/-- Offsets per gate (OFFSETS_PER_GATE). -/
def OFFSETS_PER_GATE : Nat := 3

/-- Size of a mod-builtin instance (BUILTIN_INSTACE_SIZE_MOD). -/
def BUILTIN_INSTACE_SIZE_MOD : Nat := 7

/-- circuit::read_circuit_value: reassemble one big integer from 4 little-
endian 96-bit limbs, reading limb indices 3, 2, 1, 0; any absent or
relocatable limb makes the value unknown (None). -/
def read_circuit_value (mem : Memory) (add : Addr) : Option Nat :=
  match mem (addAddr add 3), mem (addAddr add 2), mem (addAddr add 1), mem (addAddr add 0) with
  | some (.int l3), some (.int l2), some (.int l1), some (.int l0) =>
    some ((((((l3 <<< 96) + l2) <<< 96) + l1) <<< 96) + l0)
  | _, _, _, _ => none

/-- circuit::write_circuit_value: split a big integer into 4 little-endian
96-bit limbs by repeated div_rem and insert them. -/
def write_circuit_value (mem : Memory) (add : Addr) (value : Nat) : Memory :=
  let m0 := insertMem mem (addAddr add 0) (.int (value % 2 ^ 96))
  let m1 := insertMem m0 (addAddr add 1) (.int (value / 2 ^ 96 % 2 ^ 96))
  let m2 := insertMem m1 (addAddr add 2) (.int (value / 2 ^ 96 / 2 ^ 96 % 2 ^ 96))
  insertMem m2 (addAddr add 3) (.int (value / 2 ^ 96 / 2 ^ 96 / 2 ^ 96 % 2 ^ 96))

/-- circuit::get_modulus: canonical residue of a signed Bezout coefficient. -/
def get_modulus (value : Int) (modulus : Nat) : Nat :=
  let value_magnitud := value.natAbs % modulus
  if value < 0 then modulus - value_magnitud else value_magnitud

/-- circuit::find_inverse: extended gcd of (value, modulus); a unit yields
(true, inverse), otherwise (false, nullifier = modulus / gcd).  The
num-integer extended_gcd of the source is modelled by igcdex, which returns
the same gcd and a Bezout coefficient congruent to the same inverse. -/
def find_inverse (value modulus : Nat) : Bool × Nat :=
  let r := igcdex (value : Int) (modulus : Int)
  let gcd := r.2.2.toNat
  if gcd = 1 then (true, get_modulus r.1 modulus)
  else (false, modulus / gcd)

/-- Circuit::read_*_mod_value via Circuit::get_value_ptr: fetch the k-th
entry of an offset table (panic — none — if absent or relocatable), then
read the circuit value it points at inside the values buffer; the inner
Option is the source's known/unknown distinction. -/
def readGateValue (mem : Memory) (values_ptr offsets : Addr) (k : Nat) :
    Option (Option Nat) :=
  match mem (addAddr offsets k) with
  | some (.int off) => some (read_circuit_value mem (addAddr values_ptr off))
  | _ => none

/-- Circuit::write_*_mod_value via Circuit::get_value_ptr: fetch the k-th
offset-table entry (panic — none — if absent or relocatable) and write the
circuit value at it. -/
def writeGateValue (mem : Memory) (values_ptr offsets : Addr) (k : Nat) (value : Nat) :
    Option Memory :=
  match mem (addAddr offsets k) with
  | some (.int off) => some (write_circuit_value mem (addAddr values_ptr off) value)
  | _ => none

/-- The add-gate draining while-loop of circuit::compute_gates, from add-gate
index i with an iteration bound (n_add_mods suffices: the index grows on
every continue).  Returns the memory and the index of the first
non-schedulable add-gate (or n_add_mods). -/
def drainAdds (modulus : Nat) (values_ptr add_mod_offsets : Addr) (n_add_mods : Nat) :
    Nat → Memory → Nat → Option (Memory × Nat)
  | 0, mem, i => some (mem, i)
  | fuel + 1, mem, i =>
    if i < n_add_mods then
      match readGateValue mem values_ptr add_mod_offsets (3 * i),
            readGateValue mem values_ptr add_mod_offsets (3 * i + 1) with
      | some lhs, some rhs =>
        match lhs, rhs with
        | some l, some r =>
          match writeGateValue mem values_ptr add_mod_offsets (3 * i + 2) ((l + r) % modulus) with
          | some mem2 => drainAdds modulus values_ptr add_mod_offsets n_add_mods fuel mem2 (i + 1)
          | none => none
        | none, some r =>
          match readGateValue mem values_ptr add_mod_offsets (3 * i + 2) with
          | none => none
          | some none => some (mem, i)
          | some (some res) =>
            if res + modulus < r then none
            else
              match writeGateValue mem values_ptr add_mod_offsets (3 * i)
                  ((res + modulus - r) % modulus) with
              | some mem2 =>
                drainAdds modulus values_ptr add_mod_offsets n_add_mods fuel mem2 (i + 1)
              | none => none
        | _, _ => some (mem, i)
      | _, _ => none
    else some (mem, i)

/-- The outer loop of circuit::compute_gates: drain add-gates, then process
one mul-gate, and repeat.  State: memory, add-gate index, mul-gate index.
Result: the memory and the first mul-gate index that failed to invert, or
n_mul_mods when none did.  The iteration bound n_mul_mods + 1 is never
exhausted, the mul index growing on every continue. -/
def gatesLoop (modulus : Nat) (values_ptr add_mod_offsets mul_mod_offsets : Addr)
    (n_add_mods n_mul_mods : Nat) :
    Nat → Memory → Nat → Nat → Option (Memory × Nat)
  | 0, _, _, _ => none
  | fuel + 1, mem, addmod_idx, mulmod_idx =>
    match drainAdds modulus values_ptr add_mod_offsets n_add_mods n_add_mods mem addmod_idx with
    | none => none
    | some (mem1, a1) =>
      if mulmod_idx = n_mul_mods then some (mem1, n_mul_mods)
      else
        match readGateValue mem1 values_ptr mul_mod_offsets (3 * mulmod_idx),
              readGateValue mem1 values_ptr mul_mod_offsets (3 * mulmod_idx + 1) with
        | some lhs, some rhs =>
          match lhs, rhs with
          | some l, some r =>
            match writeGateValue mem1 values_ptr mul_mod_offsets (3 * mulmod_idx + 2)
                ((l * r) % modulus) with
            | some mem2 =>
              gatesLoop modulus values_ptr add_mod_offsets mul_mod_offsets n_add_mods n_mul_mods
                fuel mem2 a1 (mulmod_idx + 1)
            | none => none
          | none, some r =>
            match writeGateValue mem1 values_ptr mul_mod_offsets (3 * mulmod_idx)
                (find_inverse r modulus).2 with
            | some mem2 =>
              if (find_inverse r modulus).1 then
                gatesLoop modulus values_ptr add_mod_offsets mul_mod_offsets n_add_mods n_mul_mods
                  fuel mem2 a1 (mulmod_idx + 1)
              else some (mem2, mulmod_idx)
            | none => none
          | _, _ => none
        | _, _ => none

/-- circuit::compute_gates: read the modulus (4 limbs at modulus_ptr,
.unwrap — none if unknown) and run the gate loop from indices (0, 0). -/
def compute_gates (mem : Memory) (values_ptr add_mod_offsets : Addr) (n_add_mods : Nat)
    (mul_mod_offsets : Addr) (n_mul_mods : Nat) (modulus_ptr : Addr) :
    Option (Memory × Nat) :=
  match read_circuit_value mem modulus_ptr with
  | none => none
  | some modulus =>
    gatesLoop modulus values_ptr add_mod_offsets mul_mod_offsets n_add_mods n_mul_mods
      (n_mul_mods + 1) mem 0 0

/-- The for-loop of circuit::fill_instances, writing instances i, i+1, ...
while rem counts down; offsets_ptr advances by OFFSETS_PER_GATE per
instance.  Each instance slot receives the 4 modulus limbs at offsets 0-3,
the shared values pointer at 4, its own offsets pointer at 5 and the
countdown n_instances - i at 6. -/
def fillInstancesAux (built_ptr : Addr) (n_instances : Nat)
    (modulus : Nat × Nat × Nat × Nat) (values_ptr : Addr) :
    Nat → Nat → Addr → Memory → Memory
  | 0, _i, _offsets_ptr, mem => mem
  | rem + 1, i, offsets_ptr, mem =>
    let instance_ptr := addAddr built_ptr (i * BUILTIN_INSTACE_SIZE_MOD)
    let mem := insertMem mem (addAddr instance_ptr 0) (.int modulus.1)
    let mem := insertMem mem (addAddr instance_ptr 1) (.int modulus.2.1)
    let mem := insertMem mem (addAddr instance_ptr 2) (.int modulus.2.2.1)
    let mem := insertMem mem (addAddr instance_ptr 3) (.int modulus.2.2.2)
    let mem := insertMem mem (addAddr instance_ptr 4) (.ptr values_ptr)
    let mem := insertMem mem (addAddr instance_ptr 5) (.ptr offsets_ptr)
    let mem := insertMem mem (addAddr instance_ptr 6) (.int (n_instances - i))
    fillInstancesAux built_ptr n_instances modulus values_ptr rem (i + 1)
      (addAddr offsets_ptr OFFSETS_PER_GATE) mem

/-- circuit::fill_instances. -/
def fill_instances (mem : Memory) (built_ptr : Addr) (n_instances : Nat)
    (modulus : Nat × Nat × Nat × Nat) (values_ptr offsets_ptr : Addr) : Memory :=
  fillInstancesAux built_ptr n_instances modulus values_ptr n_instances 0 offsets_ptr mem

/-! ## Address resolution — src/src/hint_processor/hint_processor_utils.rs -/

/-- The base register of a register-relative offset. -/
inductive Register where
  | AP
  | FP
  deriving DecidableEq, Repr

/-- serde::deserialize_program::OffsetValue. -/
inductive OffsetValue where
  | Immediate (v : Nat)
  | Value (v : Int)
  | Reference (register : Register) (offset : Int) (deref : Bool)
  deriving DecidableEq, Repr

/-- serde::deserialize_program::ApTracking. -/
structure ApTracking where
  group : Nat
  offset : Nat
  deriving DecidableEq, Repr

/-- hint_processor_definition::HintReference (the informational cairo_type
field, unused by resolution, is omitted). -/
structure HintReference where
  offset1 : OffsetValue
  offset2 : OffsetValue
  dereference : Bool
  ap_tracking_data : Option ApTracking
  deriving DecidableEq, Repr

/-- The slice of VirtualMachine state that address resolution reads: the two
frame registers and the memory facade. -/
structure Vm where
  fp : Addr
  ap : Addr
  mem : Memory

/-- VirtualMachine::get_maybe (memory-facade errors that only temporary
segments can raise are not modelled: resolution maps them to the same
FailedToGetIds at its single use site). -/
def vmGetMaybe (vm : Vm) (a : Addr) : Option MaybeRelocatable := vm.mem a

/-- VirtualMachine::get_integer: the cell must hold a field element. -/
def vmGetInteger (vm : Vm) (a : Addr) : Except VirtualMachineError Nat :=
  match vm.mem a with
  | some (.int n) => .ok n
  | some (.ptr _) => .error (.ExpectedInteger a.1 a.2)
  | none => .error (.MemoryGet a.1 a.2)

/-- VirtualMachine::get_relocatable: the cell must hold an address. -/
def vmGetRelocatable (vm : Vm) (a : Addr) : Except VirtualMachineError Addr :=
  match vm.mem a with
  | some (.ptr p) => .ok p
  | some (.int _) => .error (.ExpectedRelocatable a.1 a.2)
  | none => .error (.MemoryGet a.1 a.2)

/-- hint_processor_utils::apply_ap_tracking_correction: requires equal
tracking groups (InvalidTrackingGroup otherwise), then moves the stack
pointer back by hint.offset - ref.offset.  The final subtraction is the
source's Relocatable::sub_usize; its underflow failure value is modelled
from the spec: fails FailedToGetIds on underflow. -/
def apply_ap_tracking_correction (ap : Addr) (ref_ap_tracking hint_ap_tracking : ApTracking) :
    Except VirtualMachineError Addr :=
  if ref_ap_tracking.group ≠ hint_ap_tracking.group then
    .error (.InvalidTrackingGroup ref_ap_tracking.group hint_ap_tracking.group)
  else
    let ap_diff := hint_ap_tracking.offset - ref_ap_tracking.offset
    if ap.2 < ap_diff then .error .FailedToGetIds else .ok (ap.1, ap.2 - ap_diff)

/-- hint_processor_utils::get_offset_value_reference: resolve one register-
relative offset slot to a cell value (dereferenced) or to the address
itself. -/
def get_offset_value_reference (vm : Vm) (hint_reference : HintReference)
    (hint_ap_tracking : ApTracking) (offset_value : OffsetValue) :
    Except VirtualMachineError MaybeRelocatable :=
  match offset_value with
  | .Reference register offset deref =>
    match (if register = Register.FP then Except.ok vm.fp
           else match hint_reference.ap_tracking_data with
                | none => Except.error VirtualMachineError.NoneApTrackingData
                | some var_ap_trackig =>
                  apply_ap_tracking_correction vm.ap var_ap_trackig hint_ap_tracking) with
    | .error e => .error e
    | .ok base_addr =>
      if offset < 0 ∧ base_addr.2 < offset.natAbs then .error .FailedToGetIds
      else
        let target : Addr := (base_addr.1, ((base_addr.2 : Int) + offset).toNat)
        if deref then
          match vmGetMaybe vm target with
          | some v => .ok v
          | none => .error .FailedToGetIds
        else .ok (.ptr target)
  | _ => .error .FailedToGetIds

/-- MaybeRelocatable::get_relocatable. -/
def getRelocatable (v : MaybeRelocatable) : Except VirtualMachineError Addr :=
  match v with
  | .ptr p => .ok p
  | .int _ => .error (.ExpectedRelocatable 0 0)

/-- MaybeRelocatable::get_int_ref followed by Felt::to_usize (the felt fits
in a machine word or BigintToUsizeFail). -/
def getIntToUsize (v : MaybeRelocatable) : Except VirtualMachineError Nat :=
  match v with
  | .int n => if n < 2 ^ 64 then .ok n else .error .BigintToUsizeFail
  | .ptr _ => .error (.ExpectedInteger 0 0)

/-- hint_processor_utils::compute_addr_from_reference: offset1 must be
register-relative (NoRegisterInReference otherwise); offset2 is either a
second register-relative offset whose loaded value must be an integer, or a
constant added directly. -/
def compute_addr_from_reference (hint_reference : HintReference) (vm : Vm)
    (hint_ap_tracking : ApTracking) : Except VirtualMachineError Addr :=
  match hint_reference.offset1 with
  | .Reference _ _ _ =>
    match get_offset_value_reference vm hint_reference hint_ap_tracking hint_reference.offset1 with
    | .error e => .error e
    | .ok v1 =>
      match getRelocatable v1 with
      | .error e => .error e
      | .ok offset1 =>
        match hint_reference.offset2 with
        | .Reference _ _ _ =>
          match get_offset_value_reference vm hint_reference hint_ap_tracking
              hint_reference.offset2 with
          | .error e => .error e
          | .ok value =>
            match getIntToUsize value with
            | .error e => .error e
            | .ok n => .ok (addAddr offset1 n)
        | .Value value => .ok (offset1.1, ((offset1.2 : Int) + value).toNat)
        | _ => .error .NoRegisterInReference
  | _ => .error .NoRegisterInReference

/-- hint_processor_utils::get_integer_from_reference: an immediate in the
first offset slot is returned directly; otherwise the reference is resolved
to an address and the integer there is loaded. -/
def get_integer_from_reference (vm : Vm) (hint_reference : HintReference)
    (ap_tracking : ApTracking) : Except VirtualMachineError Nat :=
  match hint_reference.offset1 with
  | .Immediate int_1 => .ok int_1
  | _ =>
    match compute_addr_from_reference hint_reference vm ap_tracking with
    | .error e => .error e
    | .ok var_addr => vmGetInteger vm var_addr

/-- hint_processor_utils::get_ptr_from_reference. -/
def get_ptr_from_reference (vm : Vm) (hint_reference : HintReference)
    (ap_tracking : ApTracking) : Except VirtualMachineError Addr :=
  match compute_addr_from_reference hint_reference vm ap_tracking with
  | .error e => .error e
  | .ok var_addr =>
    if hint_reference.dereference then vmGetRelocatable vm var_addr
    else .ok var_addr

/-! ## Helper lemmas -/

/-- One Newton step from a positive guess never drops below the integer
square root. -/
lemma sqrt_le_newton (n x : Nat) (hx : 1 ≤ x) : Nat.sqrt n ≤ (x + n / x) / 2 := by
  have hs : Nat.sqrt n * Nat.sqrt n ≤ n := Nat.sqrt_le n
  have h1 : Nat.sqrt n * Nat.sqrt n / x ≤ n / x := Nat.div_le_div_right hs
  rw [Nat.le_div_iff_mul_le (by norm_num : 0 < 2)]
  have hd : 0 ≤ n / x := Nat.zero_le _
  rcases le_or_lt (2 * Nat.sqrt n) x with h | h
  · omega
  · have key : (2 * Nat.sqrt n - x) * x ≤ Nat.sqrt n * Nat.sqrt n := by
      zify [h.le]
      nlinarith [sq_nonneg ((Nat.sqrt n : Int) - x)]
    have h2 : 2 * Nat.sqrt n - x ≤ Nat.sqrt n * Nat.sqrt n / x :=
      (Nat.le_div_iff_mul_le hx).2 key
    omega

/-- One Newton step strictly decreases any guess above the integer square
root. -/
lemma newton_lt (n x : Nat) (hx : Nat.sqrt n < x) : (x + n / x) / 2 < x := by
  have hx0 : 0 < x := lt_of_le_of_lt (Nat.zero_le _) hx
  have hn : n < x * x := Nat.sqrt_lt.mp hx
  have hdiv : n / x < x := (Nat.div_lt_iff_lt_mul hx0).2 hn
  omega

/-- The Newton while-loop computes the integer square root from any starting
guess at least as large. -/
lemma isqrtLoop_eq (n : Nat) (hn : 1 ≤ n) :
    ∀ x, Nat.sqrt n ≤ x → 1 ≤ x → isqrtLoop n x ((x + n / x) / 2) = Nat.sqrt n := by
  intro x
  induction x using Nat.strong_induction_on with
  | _ x ih =>
    intro hsx hx1
    rw [isqrtLoop]
    by_cases hlt : (x + n / x) / 2 < x
    · rw [dif_pos hlt]
      have hsy : Nat.sqrt n ≤ (x + n / x) / 2 := sqrt_le_newton n x hx1
      have hy1 : 1 ≤ (x + n / x) / 2 := by
        have := Nat.sqrt_pos.mpr hn
        omega
      exact ih _ hlt hsy hy1
    · rw [dif_neg hlt]
      by_contra hne
      exact hlt (newton_lt n x (lt_of_le_of_ne hsx (Ne.symm hne)))

/-- isqrt on a nonnegative integer returns the integer square root of its
representative. -/
lemma isqrt_of_nonneg (n : Int) (h : 0 ≤ n) :
    isqrt n = Except.ok ((Nat.sqrt n.toNat : Nat) : Int) := by
  have hloop : isqrtLoop n.toNat n.toNat ((n.toNat + 1) / 2) = Nat.sqrt n.toNat := by
    rcases Nat.eq_zero_or_pos n.toNat with h0 | h1
    · rw [h0]
      rw [isqrtLoop]
      norm_num
    · have : (n.toNat + 1) / 2 = (n.toNat + n.toNat / n.toNat) / 2 := by
        rw [Nat.div_self h1]
      rw [this]
      exact isqrtLoop_eq n.toNat h1 n.toNat (Nat.sqrt_le_self _) h1
  unfold isqrt
  rw [if_neg (by omega)]
  simp only [hloop]
  rw [if_pos ⟨Nat.sqrt_le _, Nat.lt_succ_sqrt _⟩]

/-! ## Claim theorems -/

/-- C5: for every integer n, if n ≥ 0 then isqrt returns a value r with
r^2 ≤ n < (r+1)^2 (so isqrt of a perfect square k^2 with k ≥ 0 is k, and
the FailedToGetSqrt branch is unreachable), and if n < 0 it fails with
SqrtNegative n. -/
theorem isqrt_spec (n : Int) :
    (0 ≤ n → ∃ r : Int, isqrt n = Except.ok r ∧ 0 ≤ r ∧ r * r ≤ n ∧ n < (r + 1) * (r + 1)) ∧
    (∀ k : Int, 0 ≤ k → isqrt (k * k) = Except.ok k) ∧
    (∀ e : Int, isqrt n ≠ Except.error (VirtualMachineError.FailedToGetSqrt e)) ∧
    (n < 0 → isqrt n = Except.error (VirtualMachineError.SqrtNegative n)) := by
  refine ⟨?_, ?_, ?_, ?_⟩
  · intro h
    refine ⟨(Nat.sqrt n.toNat : Int), isqrt_of_nonneg n h, by positivity, ?_, ?_⟩
    · have := Nat.sqrt_le n.toNat
      have hn : ((n.toNat : Int)) = n := Int.toNat_of_nonneg h
      rw [← hn]
      exact_mod_cast this
    · have := Nat.lt_succ_sqrt n.toNat
      have hn : ((n.toNat : Int)) = n := Int.toNat_of_nonneg h
      rw [← hn]
      exact_mod_cast this
  · intro k hk
    have hkk : (0 : Int) ≤ k * k := mul_nonneg hk hk
    rw [isqrt_of_nonneg (k * k) hkk]
    have : (k * k).toNat = k.toNat * k.toNat := by
      rcases Int.eq_ofNat_of_zero_le hk with ⟨m, rfl⟩
      rw [← Int.natCast_mul, Int.toNat_natCast, Int.toNat_natCast]
    rw [this, Nat.sqrt_eq]
    rw [Int.toNat_of_nonneg hk]
  · intro e
    rcases lt_or_le n 0 with h | h
    · unfold isqrt
      rw [if_pos h]
      simp
    · rw [isqrt_of_nonneg n h]
      simp
  · intro h
    unfold isqrt
    rw [if_pos h]

/-- Witness for C5 at n = 81 and n = -1. -/
theorem isqrt_spec_witness :
    isqrt 81 = Except.ok 9 ∧ isqrt (-1) = Except.error (VirtualMachineError.SqrtNegative (-1)) := by
  constructor
  · have h := (isqrt_spec 0).2.1 9 (by norm_num)
    norm_num at h
    exact h
  · exact (isqrt_spec (-1)).2.2.2 (by norm_num)

/-- C6 (amended): safe_div fails with DividedByZero exactly when y = 0; when
y ≠ 0 does not divide x it fails with SafeDivFail x y; and the field
round-trip safe_div (a * b) b = a holds for b ≠ 0 whenever the integer
product a * b stays below the prime, i.e. when the field product involves
no modular reduction (the unamended claim fails once the product wraps —
see the counterexample). -/
theorem safe_div_spec (x y a b : Nat) :
    (safe_div x y = Except.error VirtualMachineError.DividedByZero ↔ y = 0) ∧
    (y ≠ 0 → ¬ (y ∣ x) → safe_div x y = Except.error (VirtualMachineError.SafeDivFail x y)) ∧
    (b ≠ 0 → a * b < PRIME → safe_div (feltMul a b) b = Except.ok a) := by
  refine ⟨⟨?_, ?_⟩, ?_, ?_⟩
  · intro h
    by_contra hy
    unfold safe_div at h
    rw [if_neg hy] at h
    by_cases hr : x % y ≠ 0
    · rw [if_pos hr] at h
      exact VirtualMachineError.noConfusion (Except.error.inj h)
    · rw [if_neg hr] at h
      exact Except.noConfusion h
  · intro h
    unfold safe_div
    rw [if_pos h]
  · intro hy hnd
    unfold safe_div
    rw [if_neg hy, if_pos (fun hmod => hnd (Nat.dvd_iff_mod_eq_zero.2 hmod))]
  · intro hb hlt
    have hm : feltMul a b = a * b := by
      unfold feltMul
      exact Nat.mod_eq_of_lt hlt
    unfold safe_div
    rw [hm, if_neg hb, if_neg (by simp [Nat.mul_mod_left]), Nat.mul_div_cancel _ (Nat.pos_of_ne_zero hb)]

/-- Witness for C6 at (25, 4), (25, 0) and the in-range product 3 * 5. -/
theorem safe_div_spec_witness :
    safe_div 25 4 = Except.error (VirtualMachineError.SafeDivFail 25 4) ∧
    safe_div 25 0 = Except.error VirtualMachineError.DividedByZero ∧
    safe_div (feltMul 3 5) 5 = Except.ok 3 := by
  refine ⟨?_, ?_, ?_⟩
  · exact (safe_div_spec 25 4 0 0).2.1 (by norm_num) (by decide)
  · exact (safe_div_spec 25 0 0 0).1.2 rfl
  · exact (safe_div_spec 0 0 3 5).2.2 (by norm_num) (by norm_num [PRIME])

/-- C6 counterexample: with the field product (a * b reduced mod the prime)
the round-trip fails.  For a = 2 and b = (PRIME + 1) / 2 the field product
is 1, and safe_div(1, b) fails with SafeDivFail rather than returning 2. -/
theorem safe_div_field_product_counterexample :
    (1809251394333065606848661391547535052811553607665798349986546028067936010241 : Nat) ≠ 0 ∧
    feltMul 2 1809251394333065606848661391547535052811553607665798349986546028067936010241 = 1 ∧
    safe_div
        (feltMul 2 1809251394333065606848661391547535052811553607665798349986546028067936010241)
        1809251394333065606848661391547535052811553607665798349986546028067936010241
      = Except.error (VirtualMachineError.SafeDivFail 1
          1809251394333065606848661391547535052811553607665798349986546028067936010241) ∧
    safe_div
        (feltMul 2 1809251394333065606848661391547535052811553607665798349986546028067936010241)
        1809251394333065606848661391547535052811553607665798349986546028067936010241
      ≠ Except.ok 2 := by
  refine ⟨by norm_num, by rfl, by rfl, ?_⟩
  intro h
  rw [show safe_div
      (feltMul 2 1809251394333065606848661391547535052811553607665798349986546028067936010241)
      1809251394333065606848661391547535052811553607665798349986546028067936010241
    = Except.error (VirtualMachineError.SafeDivFail 1
        1809251394333065606848661391547535052811553607665798349986546028067936010241) from rfl] at h
  exact Except.noConfusion h

/-- C4: in the EC-op double-and-add loop, each iteration first compares the
two x-coordinates — in the reachable states both lie in [0, p), so equality
mod p is equality — and fails EcOpSameXCoordinate when they coincide,
before the scalar bit is examined (the conclusion does not depend on the
slope argument); otherwise the partial sum gains the doubled point exactly
when the low bit is 1, the doubled point is always doubled, and the scalar
shifts right one bit.  The first conjunct ties ec_op_impl to its loop. -/
theorem ec_op_impl_step (m0 : Nat) (alpha p : Int) (psum dpoint : Int × Int)
    (slope height : Nat)
    (hp1 : 0 ≤ psum.1) (hp2 : psum.1 < p) (hd1 : 0 ≤ dpoint.1) (hd2 : dpoint.1 < p) :
    (ec_op_impl psum dpoint slope alpha p height
      = ecOpLoop slope alpha p psum dpoint slope height) ∧
    (dpoint.1 % p = psum.1 % p →
      ecOpLoop m0 alpha p psum dpoint slope (height + 1) =
        Except.error (RunnerError.EcOpSameXCoordinate psum m0 dpoint)) ∧
    (¬ dpoint.1 % p = psum.1 % p →
      ecOpLoop m0 alpha p psum dpoint slope (height + 1) =
        ecOpLoop m0 alpha p (if slope % 2 = 1 then ec_add psum dpoint p else psum)
          (ec_double dpoint alpha p) (slope / 2) height) := by
  have hxd : dpoint.1 % p = dpoint.1 := Int.emod_eq_of_lt hd1 hd2
  have hxp : psum.1 % p = psum.1 := Int.emod_eq_of_lt hp1 hp2
  refine ⟨rfl, ?_, ?_⟩
  · intro h
    rw [hxd, hxp] at h
    rw [ecOpLoop]
    rw [if_pos (sub_eq_zero.mpr h)]
  · intro h
    rw [hxd, hxp] at h
    rw [ecOpLoop]
    rw [if_neg (fun hz => h (sub_eq_zero.mp hz))]
    congr 1
    by_cases hb : slope % 2 = 0
    · rw [if_neg (by omega), if_neg (by omega)]
    · rw [if_pos (by omega), if_pos (by omega)]

/-- Witness for C4: same x-coordinates fail at once (even with a zero low
bit), distinct ones step to add/double/shift. -/
theorem ec_op_impl_step_witness :
    ecOpLoop 0 1 7 (1, 2) (1, 3) 4 1 =
      Except.error (RunnerError.EcOpSameXCoordinate (1, 2) 0 (1, 3)) ∧
    ecOpLoop 0 1 7 (0, 2) (1, 3) 5 1 =
      ecOpLoop 0 1 7 (ec_add (0, 2) (1, 3) 7) (ec_double (1, 3) 1 7) 2 0 := by
  constructor
  · exact (ec_op_impl_step 0 1 7 (1, 2) (1, 3) 4 0 (by norm_num) (by norm_num)
      (by norm_num) (by norm_num)).2.1 (by norm_num)
  · have h := (ec_op_impl_step 0 1 7 (0, 2) (1, 3) 5 0 (by norm_num) (by norm_num)
      (by norm_num) (by norm_num)).2.2 (by norm_num)
    simpa using h

/-- The memory of the EC-op deduction fixture: the five input cells of the
instance at segment 3 hold P, Q and m = 34. -/
def memC1 : Memory := fun a =>
  match a with
  | (3, 0) => some (.int 2962412995502985605007699495352191122971573493113767820301112397466445942584)
  | (3, 1) => some (.int 214950771763870898744428659242275426967582168179217139798831865603966154129)
  | (3, 2) => some (.int 874739451078007766457464989774322083649278607533249481151382481072868806602)
  | (3, 3) => some (.int 152666792071518830868575557812948353041420400780739481342941381225525861407)
  | (3, 4) => some (.int 34)
  | _ => none

/-- C1: on the fixture memory, deducing the first output cell (instance
offset 5) yields the x-coordinate of P + 34 * Q computed by double-and-add
over the 256 scalar-height bits. -/
theorem deduce_memory_cell_fixture :
    deduce_memory_cell ecOpRunner (3, 5) memC1 =
      Except.ok (some (.int
        2778063437308421278851140253538604815869848682781135193774472480292420096757)) := by
  rfl

/-- The fixture memory with Q replaced by a point off the curve (its y
coordinate bumped by one); P is still on the curve. -/
def memC10 : Memory := fun a =>
  match a with
  | (3, 0) => some (.int 2962412995502985605007699495352191122971573493113767820301112397466445942584)
  | (3, 1) => some (.int 214950771763870898744428659242275426967582168179217139798831865603966154129)
  | (3, 2) => some (.int 874739451078007766457464989774322083649278607533249481151382481072868806602)
  | (3, 3) => some (.int 152666792071518830868575557812948353041420400780739481342941381225525861408)
  | (3, 4) => some (.int 34)
  | _ => none

/-- C10: deduce_memory_cell validates only P against the curve equation:
on a memory whose Q cell pair is off the curve (while P is on it), the
deduction still proceeds and returns a value instead of failing
PointNotOnCurve — Q is never checked. -/
theorem deduce_memory_cell_skips_q_check :
    point_on_curve 2962412995502985605007699495352191122971573493113767820301112397466445942584
      214950771763870898744428659242275426967582168179217139798831865603966154129
      ALPHA BETA = true ∧
    point_on_curve 874739451078007766457464989774322083649278607533249481151382481072868806602
      152666792071518830868575557812948353041420400780739481342941381225525861408
      ALPHA BETA = false ∧
    deduce_memory_cell ecOpRunner (3, 5) memC10 =
      Except.ok (some (.int
        1569641597970712756473327820892808021541807460838900916743310476949855423739)) := by
  exact ⟨rfl, rfl, rfl⟩

/-- A memory whose instance at (0, 0) has a relocatable in input cell 0 and
nothing in input cells 1..4. -/
def memC3 : Memory := fun a =>
  match a with
  | (0, 0) => some (.ptr (1, 2))
  | _ => none

/-- C3 counterexample: input cell 1 of the instance is absent from memory,
yet deduce_memory_cell returns the error ExpectedInteger (raised by the
relocatable in input cell 0, which the read loop meets first) instead of
the Deferred outcome the claim promises whenever any input cell is
absent. -/
theorem deduce_memory_cell_missing_input_error :
    memC3 (0, 1) = none ∧
    deduce_memory_cell ecOpRunner (0, 5) memC3 =
      Except.error (RunnerError.ExpectedInteger 0 0) := by
  exact ⟨rfl, rfl⟩

/-- If some input cell is absent and every input cell before it holds a
field element, the reading loop of deduce_memory_cell defers. -/
lemma readInputCells_missing (mem : Memory) (inst : Addr) :
    ∀ j i rem, j < rem → mem (addAddr inst (i + j)) = none →
      (∀ k, k < j → ∃ v, mem (addAddr inst (i + k)) = some (.int v)) →
      readInputCells mem inst i rem = .ok none := by
  intro j
  induction j with
  | zero =>
    intro i rem hj hnone _
    rcases rem with _ | rem
    · omega
    · rw [readInputCells]
      simp only [Nat.add_zero] at hnone
      rw [hnone]
  | succ j ih =>
    intro i rem hj hnone hprev
    rcases rem with _ | rem
    · omega
    · rw [readInputCells]
      obtain ⟨v, hv⟩ := hprev 0 (Nat.succ_pos j)
      simp only [Nat.add_zero] at hv
      rw [hv]
      have hrec : readInputCells mem inst (i + 1) rem = .ok none := by
        apply ih (i + 1) rem (by omega)
        · have he : i + 1 + j = i + (j + 1) := by omega
          rw [he]
          exact hnone
        · intro k hk
          have he : i + 1 + k = i + (k + 1) := by omega
          rw [he]
          exact hprev (k + 1) (by omega)
      rw [hrec]

/-- C3 (amended): if the cell index within the instance is not one of the
two output indices 5 and 6 (cells_per_instance = 7), deduce_memory_cell
returns the Deferred outcome; and if some input cell of the instance is
absent while every input cell before the first absent one holds a field
element, it likewise returns Deferred rather than an error.  (Unamended,
the second part is false: a relocatable input sitting before the absent
cell raises ExpectedInteger — see the counterexample.) -/
theorem deduce_memory_cell_deferred (address : Addr) (mem : Memory) :
    (address.2 % 7 ≠ 5 ∧ address.2 % 7 ≠ 6 →
      deduce_memory_cell ecOpRunner address mem = Except.ok none) ∧
    (∀ j, j < 5 → mem (addAddr (address.1, address.2 - address.2 % 7) j) = none →
      (∀ k, k < j → ∃ v,
        mem (addAddr (address.1, address.2 - address.2 % 7) k) = some (.int v)) →
      deduce_memory_cell ecOpRunner address mem = Except.ok none) := by
  constructor
  · intro h
    simp only [deduce_memory_cell, ecOpRunner, OUTPUT_INDICES]
    rw [if_pos h]
  · intro j hj hnone hprev
    simp only [deduce_memory_cell, ecOpRunner, OUTPUT_INDICES]
    by_cases hout : address.2 % 7 ≠ 5 ∧ address.2 % 7 ≠ 6
    · rw [if_pos hout]
    · rw [if_neg hout]
      have hread : readInputCells mem (address.1, address.2 - address.2 % 7) 0 5 =
          .ok none := by
        apply readInputCells_missing mem _ j 0 5 hj
        · simpa using hnone
        · intro k hk
          simpa using hprev k hk
      rw [hread]

/-- Witness for C3: a non-output cell defers on the empty memory; an output
cell defers when input cell 0 is a field element and input cell 1 is
absent. -/
theorem deduce_memory_cell_deferred_witness :
    deduce_memory_cell ecOpRunner (0, 3) emptyMem = Except.ok none ∧
    deduce_memory_cell ecOpRunner (0, 5)
      (fun a => if a = ((0 : Int), (0 : Nat)) then some (.int 1) else none) =
      Except.ok none := by
  constructor
  · exact (deduce_memory_cell_deferred (0, 3) emptyMem).1 (by norm_num)
  · refine (deduce_memory_cell_deferred (0, 5) _).2 1 (by norm_num) (by rfl) ?_
    intro k hk
    interval_cases k
    exact ⟨1, rfl⟩

/-- C8: a reference whose first offset is an immediate resolves to that
immediate with no memory access: the result holds for every VM state
(in particular one with the empty memory), and is independent of the VM
state altogether, so the memory is consulted zero times and, the resolver
being a pure reader, left unchanged. -/
theorem get_integer_from_reference_immediate (vm : Vm) (hint_reference : HintReference)
    (ap_tracking : ApTracking) (v : Nat)
    (h : hint_reference.offset1 = OffsetValue.Immediate v) :
    get_integer_from_reference vm hint_reference ap_tracking = Except.ok v ∧
    ∀ vm2 : Vm, get_integer_from_reference vm2 hint_reference ap_tracking =
      get_integer_from_reference vm hint_reference ap_tracking := by
  have hval : ∀ vm3 : Vm,
      get_integer_from_reference vm3 hint_reference ap_tracking = Except.ok v := by
    intro vm3
    unfold get_integer_from_reference
    rw [h]
  exact ⟨hval vm, fun vm2 => (hval vm2).trans (hval vm).symm⟩

/-- Witness for C8: the immediate 2 against the empty memory. -/
theorem get_integer_from_reference_immediate_witness :
    get_integer_from_reference ⟨(1, 0), (1, 0), emptyMem⟩
      ⟨OffsetValue.Immediate 2, OffsetValue.Value 0, true, none⟩ ⟨0, 0⟩ = Except.ok 2 := by
  exact (get_integer_from_reference_immediate ⟨(1, 0), (1, 0), emptyMem⟩
    ⟨OffsetValue.Immediate 2, OffsetValue.Value 0, true, none⟩ ⟨0, 0⟩ 2 rfl).1

/-- C9: a stack-pointer-relative reference whose definition-site tracking
group differs from the executing hint's tracking group makes address
resolution fail with InvalidTrackingGroup carrying the two group ids; the
VM state (hence the memory) is universally quantified and never consulted,
so the failure precedes any memory read and the memory is untouched. -/
theorem compute_addr_invalid_tracking_group (vm : Vm) (hint_reference : HintReference)
    (hint_ap_tracking ref_ap_tracking : ApTracking) (off : Int) (d : Bool)
    (h1 : hint_reference.offset1 = OffsetValue.Reference Register.AP off d)
    (h2 : hint_reference.ap_tracking_data = some ref_ap_tracking)
    (h3 : ref_ap_tracking.group ≠ hint_ap_tracking.group) :
    compute_addr_from_reference hint_reference vm hint_ap_tracking =
      Except.error (VirtualMachineError.InvalidTrackingGroup
        ref_ap_tracking.group hint_ap_tracking.group) ∧
    get_offset_value_reference vm hint_reference hint_ap_tracking hint_reference.offset1 =
      Except.error (VirtualMachineError.InvalidTrackingGroup
        ref_ap_tracking.group hint_ap_tracking.group) := by
  have hcorr : apply_ap_tracking_correction vm.ap ref_ap_tracking hint_ap_tracking =
      Except.error (VirtualMachineError.InvalidTrackingGroup
        ref_ap_tracking.group hint_ap_tracking.group) := by
    unfold apply_ap_tracking_correction
    rw [if_pos h3]
  have hoff : get_offset_value_reference vm hint_reference hint_ap_tracking
      hint_reference.offset1 =
      Except.error (VirtualMachineError.InvalidTrackingGroup
        ref_ap_tracking.group hint_ap_tracking.group) := by
    rw [h1]
    simp only [get_offset_value_reference]
    rw [if_neg (by decide : ¬ (Register.AP = Register.FP)), h2]
    simp only [hcorr]
  constructor
  · have hoff2 := hoff
    rw [h1] at hoff2
    simp only [compute_addr_from_reference, h1, hoff2]
  · exact hoff

/-- Witness for C9: groups 1 and 2 with an arbitrary concrete VM state. -/
theorem compute_addr_invalid_tracking_group_witness :
    compute_addr_from_reference
      ⟨OffsetValue.Reference Register.AP 0 false, OffsetValue.Value 0, true, some ⟨1, 0⟩⟩
      ⟨(1, 0), (1, 7), emptyMem⟩ ⟨2, 0⟩ =
      Except.error (VirtualMachineError.InvalidTrackingGroup 1 2) := by
  exact (compute_addr_invalid_tracking_group ⟨(1, 0), (1, 7), emptyMem⟩
    ⟨OffsetValue.Reference Register.AP 0 false, OffsetValue.Value 0, true, some ⟨1, 0⟩⟩
    ⟨2, 0⟩ ⟨1, 0⟩ 0 false rfl rfl (by norm_num)).1

/-- The third component of the igcdex loop is the gcd of its first two
arguments, for any sufficient iteration bound. -/
lemma igcdexLoop_gcd :
    ∀ fuel a b r s x y, b < fuel →
      (igcdexLoop fuel a b r s x y).2.2 = (Nat.gcd a b : Int) := by
  intro fuel
  induction fuel with
  | zero => intro a b r s x y h; omega
  | succ fuel ih =>
    intro a b r s x y h
    rw [igcdexLoop]
    by_cases hb : b = 0
    · rw [if_pos hb]
      subst hb
      simp
    · rw [if_neg hb]
      rw [ih b (a % b) _ _ _ _
        (by have := Nat.mod_lt a (Nat.pos_of_ne_zero hb); omega)]
      norm_cast
      rw [Nat.gcd_comm b (a % b), ← Nat.gcd_rec, Nat.gcd_comm]

/-- igcdex returns the gcd as its third component. -/
lemma igcdex_gcd (a b : Nat) : (igcdex (a : Int) (b : Int)).2.2 = (Nat.gcd a b : Int) := by
  have hca : ((a : Int) = 0) ↔ a = 0 := Int.natCast_eq_zero
  have hcb : ((b : Int) = 0) ↔ b = 0 := Int.natCast_eq_zero
  unfold igcdex
  by_cases ha : a = 0
  · by_cases hb : b = 0
    · rw [if_pos ⟨hca.mpr ha, hcb.mpr hb⟩]
      subst ha
      subst hb
      simp
    · rw [if_neg (fun hc => hb (hcb.mp hc.2)), if_pos (hca.mpr ha)]
      subst ha
      simp
  · by_cases hb : b = 0
    · rw [if_neg (fun hc => ha (hca.mp hc.1)), if_neg (fun hc => ha (hca.mp hc)),
        if_pos (hcb.mpr hb)]
      subst hb
      simp
    · rw [if_neg (fun hc => ha (hca.mp hc.1)), if_neg (fun hc => ha (hca.mp hc)),
        if_neg (fun hc => hb (hcb.mp hc))]
      simp only [Int.natAbs_ofNat]
      rw [igcdexLoop_gcd (b + 1) a b 0 1 1 0 (Nat.lt_succ_self b)]

/-- find_inverse on a non-unit takes the nullifier branch. -/
lemma find_inverse_gcd_ne_one (v m : Nat) (h : Nat.gcd v m ≠ 1) :
    find_inverse v m = (false, m / Nat.gcd v m) := by
  simp only [find_inverse, igcdex_gcd, Int.toNat_natCast]
  rw [if_neg h]

/-- find_inverse signals failure only for non-units. -/
lemma find_inverse_fst_false (v m : Nat) (h : (find_inverse v m).1 = false) :
    Nat.gcd v m ≠ 1 := by
  intro hg
  simp only [find_inverse, igcdex_gcd, Int.toNat_natCast] at h
  rw [if_pos hg] at h
  exact Bool.noConfusion h

/-- C2: when the gate loop of compute_gates reaches a mul-gate whose lhs is
unknown and whose rhs r has gcd(r, modulus) ≠ 1, it writes the nullifier
modulus / gcd into the lhs slot of the values buffer, records that gate's
index as the first-failure index and stops: the returned memory is exactly
the drained memory plus that single write (no later mul-gate is processed)
and the returned index is the failing gate's (first conjunct).  Conversely
every terminating run returns either n_mul_mods — in particular whenever
every mul-gate succeeds — or the index of a mul-gate that genuinely failed
to invert, with the nullifier written (second conjunct).  The written value
is a genuine nullifier — nullifier * rhs ≡ 0 mod modulus (third conjunct) —
and compute_gates itself returns whatever index the gate loop produced
(fourth conjunct). -/
theorem compute_gates_first_failure
    (modulus : Nat) (values_ptr add_mod_offsets mul_mod_offsets : Addr)
    (n_add_mods n_mul_mods : Nat) :
    (∀ fuel mem addmod_idx mulmod_idx mem1 a1 off r,
      drainAdds modulus values_ptr add_mod_offsets n_add_mods n_add_mods mem addmod_idx
        = some (mem1, a1) →
      mulmod_idx < n_mul_mods →
      mem1 (addAddr mul_mod_offsets (3 * mulmod_idx)) = some (.int off) →
      read_circuit_value mem1 (addAddr values_ptr off) = none →
      readGateValue mem1 values_ptr mul_mod_offsets (3 * mulmod_idx + 1) = some (some r) →
      Nat.gcd r modulus ≠ 1 →
      gatesLoop modulus values_ptr add_mod_offsets mul_mod_offsets n_add_mods n_mul_mods
        (fuel + 1) mem addmod_idx mulmod_idx
        = some (write_circuit_value mem1 (addAddr values_ptr off)
                  (modulus / Nat.gcd r modulus), mulmod_idx)) ∧
    (∀ fuel mem addmod_idx mulmod_idx mem2 ffi,
      gatesLoop modulus values_ptr add_mod_offsets mul_mod_offsets n_add_mods n_mul_mods
        fuel mem addmod_idx mulmod_idx = some (mem2, ffi) →
      mulmod_idx ≤ n_mul_mods →
      ffi = n_mul_mods ∨
        (mulmod_idx ≤ ffi ∧ ffi < n_mul_mods ∧
          ∃ mem1 off r,
            mem1 (addAddr mul_mod_offsets (3 * ffi)) = some (.int off) ∧
            read_circuit_value mem1 (addAddr values_ptr off) = none ∧
            readGateValue mem1 values_ptr mul_mod_offsets (3 * ffi + 1) = some (some r) ∧
            Nat.gcd r modulus ≠ 1 ∧
            mem2 = write_circuit_value mem1 (addAddr values_ptr off)
              (modulus / Nat.gcd r modulus))) ∧
    (∀ r, modulus / Nat.gcd r modulus * r % modulus = 0) ∧
    (∀ mem modulus_ptr, read_circuit_value mem modulus_ptr = some modulus →
      compute_gates mem values_ptr add_mod_offsets n_add_mods mul_mod_offsets n_mul_mods
          modulus_ptr =
        gatesLoop modulus values_ptr add_mod_offsets mul_mod_offsets n_add_mods n_mul_mods
          (n_mul_mods + 1) mem 0 0) := by
  refine ⟨?_, ?_, ?_, ?_⟩
  · intro fuel mem addmod_idx mulmod_idx mem1 a1 off r hda hlt hoff hlhs hrhs hgcd
    have hl : readGateValue mem1 values_ptr mul_mod_offsets (3 * mulmod_idx) = some none := by
      unfold readGateValue
      rw [hoff]
      exact congrArg some hlhs
    have hw : writeGateValue mem1 values_ptr mul_mod_offsets (3 * mulmod_idx)
        (find_inverse r modulus).2 =
        some (write_circuit_value mem1 (addAddr values_ptr off) (find_inverse r modulus).2) := by
      unfold writeGateValue
      rw [hoff]
    rw [gatesLoop, hda]
    simp only
    rw [if_neg (Nat.ne_of_lt hlt), hl, hrhs]
    simp only
    rw [hw]
    simp only
    rw [find_inverse_gcd_ne_one r modulus hgcd]
    simp
  · intro fuel
    induction fuel with
    | zero =>
      intro mem addmod_idx mulmod_idx mem2 ffi h hle
      exact Option.noConfusion h
    | succ fuel ih =>
      intro mem addmod_idx mulmod_idx mem2 ffi h hle
      rw [gatesLoop] at h
      split at h
      · exact Option.noConfusion h
      · rename_i mem1 a1 heq
        split at h
        · rename_i hmul
          exact Or.inl (congrArg Prod.snd (Option.some.inj h)).symm
        · rename_i hmul
          split at h
          · rename_i lhs rhs hlread hrread
            split at h
            · split at h
              · rename_i mem2x hwx
                rcases ih _ _ _ _ _ h (by omega) with h1 | ⟨h1, h2, h3⟩
                · exact Or.inl h1
                · exact Or.inr ⟨by omega, h2, h3⟩
              · exact Option.noConfusion h
            · rename_i u1 u2 r
              split at h
              · rename_i mem2x hwx
                split at h
                · rename_i hsucc
                  rcases ih _ _ _ _ _ h (by omega) with h1 | ⟨h1, h2, h3⟩
                  · exact Or.inl h1
                  · exact Or.inr ⟨by omega, h2, h3⟩
                · rename_i hfail
                  right
                  have hinj := Option.some.inj h
                  have hm2 : mem2x = mem2 := congrArg Prod.fst hinj
                  have hffi : mulmod_idx = ffi := congrArg Prod.snd hinj
                  subst hm2
                  subst hffi
                  refine ⟨le_refl _, by omega, ?_⟩
                  rcases hcell : mem1 (addAddr mul_mod_offsets (3 * mulmod_idx)) with _ | v
                  · rw [writeGateValue, hcell] at hwx
                    exact Option.noConfusion hwx
                  · rcases v with w | p
                    · rw [writeGateValue, hcell] at hwx
                      have hread := hlread
                      rw [readGateValue, hcell] at hread
                      have hrcv : read_circuit_value mem1 (addAddr values_ptr w) = none :=
                        Option.some.inj hread
                      have hgcd : Nat.gcd r modulus ≠ 1 :=
                        find_inverse_fst_false r modulus
                          (Bool.not_eq_true _ ▸ hfail)
                      refine ⟨mem1, w, r, hcell, hrcv, ?_, hgcd, ?_⟩
                      · rw [hrread]
                      · have hsnd : (find_inverse r modulus).2 = modulus / Nat.gcd r modulus := by
                          rw [find_inverse_gcd_ne_one r modulus hgcd]
                        rw [← hsnd]
                        exact (Option.some.inj hwx).symm
                    · rw [writeGateValue, hcell] at hwx
                      exact Option.noConfusion hwx
              · exact Option.noConfusion h
            · exact Option.noConfusion h
          · exact Option.noConfusion h
  · intro r
    by_cases hg : Nat.gcd r modulus = 0
    · have hr : r = 0 := Nat.eq_zero_of_gcd_eq_zero_left hg
      have hm : modulus = 0 := Nat.eq_zero_of_gcd_eq_zero_right hg
      simp [hr, hm]
    · obtain ⟨k, hk⟩ := Nat.gcd_dvd_left r modulus
      nth_rewrite 2 [hk]
      rw [← Nat.mul_assoc, Nat.div_mul_cancel (Nat.gcd_dvd_right r modulus)]
      exact Nat.mul_mod_right _ _
  · intro mem modulus_ptr hmod
    unfold compute_gates
    rw [hmod]

/-- A one-mul-gate circuit: offsets table in segment 0, values buffer in
segment 1, the rhs value 2 present, the lhs unknown. -/
def memW : Memory := fun a =>
  match a with
  | (0, 0) => some (.int 0)
  | (0, 1) => some (.int 4)
  | (0, 2) => some (.int 8)
  | (1, 4) => some (.int 2)
  | (1, 5) => some (.int 0)
  | (1, 6) => some (.int 0)
  | (1, 7) => some (.int 0)
  | _ => none

/-- Witness for C2: with modulus 4 the single inverse gate fails
(gcd(2,4) = 2) and the loop returns index 0 after writing the nullifier
4 / 2 = 2. -/
theorem compute_gates_first_failure_witness :
    gatesLoop 4 (1, 0) (0, 0) (0, 0) 0 1 2 memW 0 0 =
      some (write_circuit_value memW (addAddr (1, 0) 0) 2, 0) := by
  have h := (compute_gates_first_failure 4 (1, 0) (0, 0) (0, 0) 0 1).1
    1 memW 0 0 memW 0 0 2 rfl (by norm_num) rfl rfl rfl (by norm_num)
  norm_num at h
  exact h

/-- Reading any other address passes an insert through. -/
lemma insertMem_ne (mem : Memory) (b : Addr) (v : MaybeRelocatable) (x : Addr)
    (h : x ≠ b) : insertMem mem b v x = mem x := if_neg h

/-- The fill_instances loop writes nothing below its current instance. -/
lemma fillInstancesAux_frame (bp : Addr) (n : Nat) (mo : Nat × Nat × Nat × Nat) (vp : Addr) :
    ∀ rem i op mem a, a.1 ≠ bp.1 ∨ a.2 < bp.2 + i * 7 →
      fillInstancesAux bp n mo vp rem i op mem a = mem a := by
  intro rem
  induction rem with
  | zero => intro i op mem a _; rfl
  | succ rem ih =>
    intro i op mem a ha
    have hne : ∀ c : Nat, a ≠ (bp.1, bp.2 + i * 7 + c) := by
      intro c he
      rcases ha with h | h
      · exact h (by rw [he])
      · have h2 := congrArg Prod.snd he
        simp only at h2
        omega
    rw [fillInstancesAux]
    simp only [BUILTIN_INSTACE_SIZE_MOD, OFFSETS_PER_GATE, addAddr]
    rw [ih (i + 1) _ _ a (Or.imp id (fun h => by omega) ha)]
    simp only [insertMem]
    rw [if_neg (hne 6), if_neg (hne 5), if_neg (hne 4), if_neg (hne 3), if_neg (hne 2),
      if_neg (hne 1), if_neg (hne 0)]

/-- Every instance the fill_instances loop covers receives its 7 cells. -/
lemma fillInstancesAux_writes (bp : Addr) (n : Nat) (mo : Nat × Nat × Nat × Nat) (vp : Addr) :
    ∀ rem i op mem j, i ≤ j → j < i + rem →
      (fillInstancesAux bp n mo vp rem i op mem (bp.1, bp.2 + j * 7 + 0) = some (.int mo.1) ∧
       fillInstancesAux bp n mo vp rem i op mem (bp.1, bp.2 + j * 7 + 1) = some (.int mo.2.1) ∧
       fillInstancesAux bp n mo vp rem i op mem (bp.1, bp.2 + j * 7 + 2) = some (.int mo.2.2.1) ∧
       fillInstancesAux bp n mo vp rem i op mem (bp.1, bp.2 + j * 7 + 3) = some (.int mo.2.2.2) ∧
       fillInstancesAux bp n mo vp rem i op mem (bp.1, bp.2 + j * 7 + 4) = some (.ptr vp) ∧
       fillInstancesAux bp n mo vp rem i op mem (bp.1, bp.2 + j * 7 + 5) =
         some (.ptr (op.1, op.2 + (j - i) * 3)) ∧
       fillInstancesAux bp n mo vp rem i op mem (bp.1, bp.2 + j * 7 + 6) =
         some (.int (n - j))) := by
  intro rem
  induction rem with
  | zero => intro i op mem j h1 h2; omega
  | succ rem ih =>
    intro i op mem j h1 h2
    rcases Nat.eq_or_lt_of_le h1 with hji | hji
    · subst hji
      have hpair : ∀ c cx : Nat, c ≠ cx →
          ((bp.1, bp.2 + i * 7 + c) : Addr) ≠ (bp.1, bp.2 + i * 7 + cx) := by
        intro c cx hcc he
        have h2 := congrArg Prod.snd he
        simp only at h2
        omega
      rw [fillInstancesAux]
      simp only [BUILTIN_INSTACE_SIZE_MOD, OFFSETS_PER_GATE, addAddr]
      refine ⟨?_, ?_, ?_, ?_, ?_, ?_, ?_⟩ <;>
        rw [fillInstancesAux_frame bp n mo vp rem (i + 1) _ _ _ (Or.inr (by omega))] <;>
        simp [insertMem, Nat.sub_self]
    · rw [fillInstancesAux]
      simp only [BUILTIN_INSTACE_SIZE_MOD, OFFSETS_PER_GATE, addAddr]
      refine ⟨(ih (i + 1) _ _ j (by omega) (by omega)).1,
              (ih (i + 1) _ _ j (by omega) (by omega)).2.1,
              (ih (i + 1) _ _ j (by omega) (by omega)).2.2.1,
              (ih (i + 1) _ _ j (by omega) (by omega)).2.2.2.1,
              (ih (i + 1) _ _ j (by omega) (by omega)).2.2.2.2.1, ?_,
              (ih (i + 1) _ _ j (by omega) (by omega)).2.2.2.2.2.2⟩
      rw [show op.2 + (j - i) * 3 = op.2 + 3 + (j - (i + 1)) * 3 from by omega]
      exact (ih (i + 1) _ _ j (by omega) (by omega)).2.2.2.2.2.1

/-- C7: fill_instances writes into every instance slot i < n_instances of a
mod-builtin component — n_instances is whatever count the caller passes, so
for the add component this includes slots beyond the last gate actually
computed — the 4 modulus limbs at instance offsets 0..3, the shared values
pointer at offset 4, the pointer to this instance's own offset triple at
offset 5 (advancing by 3 offsets per instance) and the countdown
n_instances - i at offset 6. -/
theorem fill_instances_spec (mem : Memory) (built_ptr : Addr) (n_instances : Nat)
    (m0 m1 m2 m3 : Nat) (values_ptr offsets_ptr : Addr) (i : Nat) (h : i < n_instances) :
    fill_instances mem built_ptr n_instances (m0, m1, m2, m3) values_ptr offsets_ptr
      (built_ptr.1, built_ptr.2 + i * 7 + 0) = some (.int m0) ∧
    fill_instances mem built_ptr n_instances (m0, m1, m2, m3) values_ptr offsets_ptr
      (built_ptr.1, built_ptr.2 + i * 7 + 1) = some (.int m1) ∧
    fill_instances mem built_ptr n_instances (m0, m1, m2, m3) values_ptr offsets_ptr
      (built_ptr.1, built_ptr.2 + i * 7 + 2) = some (.int m2) ∧
    fill_instances mem built_ptr n_instances (m0, m1, m2, m3) values_ptr offsets_ptr
      (built_ptr.1, built_ptr.2 + i * 7 + 3) = some (.int m3) ∧
    fill_instances mem built_ptr n_instances (m0, m1, m2, m3) values_ptr offsets_ptr
      (built_ptr.1, built_ptr.2 + i * 7 + 4) = some (.ptr values_ptr) ∧
    fill_instances mem built_ptr n_instances (m0, m1, m2, m3) values_ptr offsets_ptr
      (built_ptr.1, built_ptr.2 + i * 7 + 5) =
        some (.ptr (offsets_ptr.1, offsets_ptr.2 + i * 3)) ∧
    fill_instances mem built_ptr n_instances (m0, m1, m2, m3) values_ptr offsets_ptr
      (built_ptr.1, built_ptr.2 + i * 7 + 6) = some (.int (n_instances - i)) := by
  have H := fillInstancesAux_writes built_ptr n_instances (m0, m1, m2, m3) values_ptr
    n_instances 0 offsets_ptr mem i (Nat.zero_le i) (by omega)
  rw [Nat.sub_zero] at H
  simp only [fill_instances]
  exact H

/-- Witness for C7: two instances at segment 2; instance 1 holds the values
pointer, its own offsets pointer 100 + 3 and the countdown 1. -/
theorem fill_instances_spec_witness :
    fill_instances emptyMem (2, 0) 2 (11, 12, 13, 14) (9, 5) (8, 100) (2, 11) =
      some (.ptr (9, 5)) ∧
    fill_instances emptyMem (2, 0) 2 (11, 12, 13, 14) (9, 5) (8, 100) (2, 12) =
      some (.ptr (8, 103)) ∧
    fill_instances emptyMem (2, 0) 2 (11, 12, 13, 14) (9, 5) (8, 100) (2, 13) =
      some (.int 1) := by
  have H := fill_instances_spec emptyMem (2, 0) 2 11 12 13 14 (9, 5) (8, 100) 1 (by norm_num)
  exact ⟨H.2.2.2.2.1, H.2.2.2.2.2.1, H.2.2.2.2.2.2⟩
